import Mathlib

/-!
# Verification of the permission service (users, nested groups, grants)

Shallow embedding of the repository's data layer and server operations.

The persistent state (`DB`) mirrors the MySQL schema of `db/initdb`:
`users`, `user_groups`, `user_group_members` (composite primary key, with
foreign keys to `users` and `user_groups`), `user_group_hierarchy`
(composite primary key, foreign keys to `user_groups`), and `permissions`
(composite primary key over all four columns, deliberately without foreign
keys).  Tables with a composite primary key are modelled as `Finset`s:
`ON DUPLICATE KEY UPDATE col = col` makes every insert an idempotent
set-insert.

Recursive CTEs (`WITH RECURSIVE ...`) are modelled by `reachSet`: iterate
the one-round expansion of the seed set until saturation; `card + 1`
rounds are proven sufficient (`nextsFrom_reachSet`), and `mem_reachSet`
characterises the result as reflexive-transitive reachability along the
adjacency set.
-/

/-- Principal type discriminator, mirroring the `ENUM('user','group')`
columns of the `permissions` table. -/
inductive PType where
  | user
  | group
deriving DecidableEq, Repr

/-- One stored row of the `permissions` table:
`(source_type, source_id, target_type, target_id)`. -/
structure Grant where
  sourceType : PType
  sourceId : Nat
  targetType : PType
  targetId : Nat
deriving DecidableEq, Repr

/-- The persistent store.  `users` / `groups` are association lists
`id ↦ name` (ids are minted by `AUTO_INCREMENT`, so they are unique);
`members` holds `(user_id, user_group_id)` rows of `user_group_members`;
`hier` holds `(child_group_id, parent_group_id)` rows of
`user_group_hierarchy`; `perms` holds the grant rows. -/
structure DB where
  nextUserId : Nat
  nextGroupId : Nat
  users : List (Nat × String)
  groups : List (Nat × String)
  members : Finset (Nat × Nat)
  hier : Finset (Nat × Nat)
  perms : Finset Grant
deriving DecidableEq

/-- The freshly initialised database: empty tables, `AUTO_INCREMENT`
counters at 1. -/
def initDB : DB :=
  { nextUserId := 1
    nextGroupId := 1
    users := []
    groups := []
    members := ∅
    hier := ∅
    perms := ∅ }

/-! ## Recursive-CTE semantics: reachability closure of a seed set -/

/-- One round of a `WITH RECURSIVE` CTE over the adjacency set `adj`
(each pair `(a, b) ∈ adj` is a step from `a` to `b`): keep the rows found
so far and add every row one step away. -/
def nextsFrom (adj : Finset (Nat × Nat)) (s : Finset Nat) : Finset Nat :=
  s ∪ (adj.filter (fun e => e.1 ∈ s)).image Prod.snd

/-- The full result of a recursive CTE seeded with `s`: expand until
saturation.  `adj.card + 1` rounds always reach the fixed point because
each non-stationary round adds at least one of the at most `adj.card`
possible new elements. -/
def reachSet (adj : Finset (Nat × Nat)) (s : Finset Nat) : Finset Nat :=
  (nextsFrom adj)^[adj.card + 1] s

/-- A single adjacency step. -/
def adjStep (adj : Finset (Nat × Nat)) (x y : Nat) : Prop := (x, y) ∈ adj

theorem subset_nextsFrom (adj : Finset (Nat × Nat)) (s : Finset Nat) :
    s ⊆ nextsFrom adj s :=
  Finset.subset_union_left

theorem subset_iterate_nextsFrom (adj : Finset (Nat × Nat)) (n : Nat)
    (s : Finset Nat) : s ⊆ (nextsFrom adj)^[n] s := by
  induction n with
  | zero => simp
  | succ n ih =>
      rw [Function.iterate_succ_apply']
      exact ih.trans (subset_nextsFrom adj _)

theorem iterate_nextsFrom_sound (adj : Finset (Nat × Nat)) (n : Nat)
    (s : Finset Nat) {x : Nat} (hx : x ∈ (nextsFrom adj)^[n] s) :
    ∃ a ∈ s, Relation.ReflTransGen (adjStep adj) a x := by
  induction n generalizing x with
  | zero => exact ⟨x, hx, Relation.ReflTransGen.refl⟩
  | succ n ih =>
      rw [Function.iterate_succ_apply'] at hx
      rcases Finset.mem_union.1 hx with h | h
      · exact ih h
      · rcases Finset.mem_image.1 h with ⟨e, he, rfl⟩
        rcases Finset.mem_filter.1 he with ⟨heAdj, heFst⟩
        rcases ih heFst with ⟨a, haS, haR⟩
        exact ⟨a, haS, haR.tail heAdj⟩

theorem iterate_nextsFrom_of_fixed {adj : Finset (Nat × Nat)}
    {s : Finset Nat} (hfix : nextsFrom adj s = s) (n : Nat) :
    (nextsFrom adj)^[n] s = s := by
  induction n with
  | zero => rfl
  | succ n ih => rw [Function.iterate_succ_apply', ih, hfix]

theorem iterate_nextsFrom_growth (adj : Finset (Nat × Nat)) (s : Finset Nat)
    (n : Nat)
    (h : ∀ k < n, nextsFrom adj ((nextsFrom adj)^[k] s) ≠ (nextsFrom adj)^[k] s) :
    s.card + n ≤ ((nextsFrom adj)^[n] s).card := by
  induction n with
  | zero => simp
  | succ n ih =>
      have hn : s.card + n ≤ ((nextsFrom adj)^[n] s).card :=
        ih (fun k hk => h k (Nat.lt_succ_of_lt hk))
      have hne : nextsFrom adj ((nextsFrom adj)^[n] s) ≠ (nextsFrom adj)^[n] s :=
        h n (Nat.lt_succ_self n)
      have hssub : (nextsFrom adj)^[n] s ⊂ nextsFrom adj ((nextsFrom adj)^[n] s) :=
        (subset_nextsFrom adj _).ssubset_of_ne (Ne.symm hne)
      have hlt := Finset.card_lt_card hssub
      rw [Function.iterate_succ_apply']
      omega

theorem iterate_nextsFrom_bounded (adj : Finset (Nat × Nat)) (s : Finset Nat)
    (n : Nat) : (nextsFrom adj)^[n] s ⊆ s ∪ adj.image Prod.snd := by
  induction n with
  | zero => simp
  | succ n ih =>
      rw [Function.iterate_succ_apply']
      intro x hx
      rcases Finset.mem_union.1 hx with h | h
      · exact ih h
      · exact Finset.mem_union_right _
          (Finset.image_subset_image (Finset.filter_subset _ _) h)

theorem exists_fixed_round (adj : Finset (Nat × Nat)) (s : Finset Nat) :
    ∃ k ≤ adj.card, nextsFrom adj ((nextsFrom adj)^[k] s) = (nextsFrom adj)^[k] s := by
  by_contra hcon
  push_neg at hcon
  have hgrow := iterate_nextsFrom_growth adj s (adj.card + 1)
    (fun k hk => hcon k (Nat.lt_succ_iff.1 hk))
  have hbound := Finset.card_le_card (iterate_nextsFrom_bounded adj s (adj.card + 1))
  have hunion : (s ∪ adj.image Prod.snd).card ≤ s.card + (adj.image Prod.snd).card :=
    Finset.card_union_le _ _
  have himg : (adj.image Prod.snd).card ≤ adj.card := Finset.card_image_le
  omega

theorem nextsFrom_reachSet (adj : Finset (Nat × Nat)) (s : Finset Nat) :
    nextsFrom adj (reachSet adj s) = reachSet adj s := by
  rcases exists_fixed_round adj s with ⟨k, hk, hfix⟩
  have hsplit : reachSet adj s = (nextsFrom adj)^[k] s := by
    have hdecomp : adj.card + 1 = (adj.card + 1 - k) + k := by omega
    unfold reachSet
    rw [hdecomp, Function.iterate_add_apply]
    exact iterate_nextsFrom_of_fixed hfix _
  rw [hsplit, hfix]

theorem reachSet_closed {adj : Finset (Nat × Nat)} {s : Finset Nat} {x y : Nat}
    (hx : x ∈ reachSet adj s) (hxy : adjStep adj x y) : y ∈ reachSet adj s := by
  have : y ∈ nextsFrom adj (reachSet adj s) := by
    refine Finset.mem_union_right _ (Finset.mem_image.2 ⟨(x, y), ?_, rfl⟩)
    exact Finset.mem_filter.2 ⟨hxy, hx⟩
  rwa [nextsFrom_reachSet] at this

/-- Main characterisation of the recursive-CTE closure: a row is produced
iff it is reachable from the seed set along the adjacency steps. -/
theorem mem_reachSet {adj : Finset (Nat × Nat)} {s : Finset Nat} {x : Nat} :
    x ∈ reachSet adj s ↔ ∃ a ∈ s, Relation.ReflTransGen (adjStep adj) a x := by
  constructor
  · exact fun h => iterate_nextsFrom_sound adj _ s h
  · rintro ⟨a, haS, haR⟩
    induction haR with
    | refl => exact subset_iterate_nextsFrom adj _ s haS
    | tail _ hstep ih => exact reachSet_closed ih hstep

/-! ## The hierarchy CTEs of `repository.go` -/

/-- The hierarchy adjacency read in the parent-to-child direction. -/
def downAdj (h : Finset (Nat × Nat)) : Finset (Nat × Nat) := h.image Prod.swap

theorem mem_downAdj {h : Finset (Nat × Nat)} {x y : Nat} :
    (x, y) ∈ downAdj h ↔ (y, x) ∈ h := by
  unfold downAdj
  constructor
  · intro hm
    rcases Finset.mem_image.1 hm with ⟨e, he, heq⟩
    have : e = (y, x) := by
      have := congrArg Prod.swap heq
      simpa using this
    rwa [this] at he
  · intro hm
    exact Finset.mem_image.2 ⟨(y, x), hm, rfl⟩

/-- `childStep h x y`: `y` is a direct child of `x` (one parent-to-child
step, i.e. the row `(child := y, parent := x)` is stored). -/
def childStep (h : Finset (Nat × Nat)) (x y : Nat) : Prop :=
  adjStep (downAdj h) x y

theorem childStep_iff {h : Finset (Nat × Nat)} {x y : Nat} :
    childStep h x y ↔ (y, x) ∈ h := mem_downAdj

/-- `parentStep h x y`: `y` is a direct parent of `x` (one child-to-parent
step, i.e. the row `(child := x, parent := y)` is stored). -/
def parentStep (h : Finset (Nat × Nat)) (x y : Nat) : Prop :=
  adjStep h x y

/-- Seed of the `user_groups` CTE: groups the user is a direct member of. -/
def directGroupsOf (db : DB) (u : Nat) : Finset Nat :=
  (db.members.filter (fun m => m.1 = u)).image Prod.snd

/-- The `user_groups` recursive CTE of the permission queries: every group
containing user `u`, directly or through nested groups (seeded with the
direct memberships of `u`, closed child-to-parent). -/
def ancestorsOfUser (db : DB) (u : Nat) : Finset Nat :=
  reachSet db.hier (directGroupsOf db u)

/-- The `parent_groups` recursive CTE of `queryCheckUserPermissionOnGroup`
(scenarios 3 and 4): the target group itself plus every group containing
it transitively (seeded with `{g}`, closed child-to-parent). -/
def groupTargetReach (db : DB) (g : Nat) : Finset Nat :=
  reachSet db.hier {g}

/-- Seed of the `descendants` CTE of `queryCheckCycle`: direct children. -/
def childrenOf (db : DB) (c : Nat) : Finset Nat :=
  (db.hier.filter (fun e => e.2 = c)).image Prod.fst

/-- The `descendants` CTE of `queryCheckCycle`: every strict descendant of
`c` (seeded with the direct children of `c`, closed parent-to-child). -/
def strictDescendants (db : DB) (c : Nat) : Finset Nat :=
  reachSet (downAdj db.hier) (childrenOf db c)

/-- The `all_groups` CTE of `querySelectUsersInGroupTransitive`: `g` plus
every group nested in it transitively (seeded with `{g}`, closed
parent-to-child). -/
def descendantsOf (db : DB) (g : Nat) : Finset Nat :=
  reachSet (downAdj db.hier) {g}

theorem mem_descendantsOf {db : DB} {g d : Nat} :
    d ∈ descendantsOf db g ↔ Relation.ReflTransGen (childStep db.hier) g d := by
  unfold descendantsOf childStep
  rw [mem_reachSet]
  simp

theorem mem_ancestorsOfUser {db : DB} {u g : Nat} :
    g ∈ ancestorsOfUser db u ↔
      ∃ a, (u, a) ∈ db.members ∧ Relation.ReflTransGen (parentStep db.hier) a g := by
  unfold ancestorsOfUser parentStep
  rw [mem_reachSet]
  constructor
  · rintro ⟨a, haS, haR⟩
    rcases Finset.mem_image.1 haS with ⟨m, hm, rfl⟩
    rcases Finset.mem_filter.1 hm with ⟨hmem, hfst⟩
    refine ⟨m.2, ?_, haR⟩
    have : m = (u, m.2) := by
      rcases m with ⟨m1, m2⟩
      simp only at hfst
      simp [hfst]
    rwa [this] at hmem
  · rintro ⟨a, haM, haR⟩
    refine ⟨a, ?_, haR⟩
    exact Finset.mem_image.2 ⟨(u, a), Finset.mem_filter.2 ⟨haM, rfl⟩, rfl⟩

theorem mem_groupTargetReach {db : DB} {g a : Nat} :
    a ∈ groupTargetReach db g ↔ Relation.ReflTransGen (parentStep db.hier) g a := by
  unfold groupTargetReach parentStep
  rw [mem_reachSet]
  simp

theorem self_mem_groupTargetReach (db : DB) (g : Nat) : g ∈ groupTargetReach db g :=
  mem_groupTargetReach.2 Relation.ReflTransGen.refl

theorem mem_strictDescendants {db : DB} {c p : Nat} :
    p ∈ strictDescendants db c ↔ Relation.TransGen (childStep db.hier) c p := by
  unfold strictDescendants
  rw [mem_reachSet, Relation.TransGen.head'_iff]
  constructor
  · rintro ⟨a, haS, haR⟩
    rcases Finset.mem_image.1 haS with ⟨e, he, rfl⟩
    rcases Finset.mem_filter.1 he with ⟨heH, hesnd⟩
    refine ⟨e.1, childStep_iff.2 ?_, ?_⟩
    · rcases e with ⟨e1, e2⟩
      simp only at hesnd
      simpa [hesnd] using heH
    · simpa [childStep] using haR
  · rintro ⟨b, hstep, hrest⟩
    refine ⟨b, ?_, by simpa [childStep] using hrest⟩
    exact Finset.mem_image.2 ⟨(b, c), Finset.mem_filter.2 ⟨childStep_iff.1 hstep, rfl⟩, rfl⟩

theorem mem_descendantsOf_iff_eq_or_strict {db : DB} {c p : Nat} :
    p ∈ descendantsOf db c ↔ c = p ∨ p ∈ strictDescendants db c := by
  rw [mem_descendantsOf, mem_strictDescendants,
    Relation.reflTransGen_iff_eq_or_transGen]
  constructor
  · rintro (rfl | h)
    · exact Or.inl rfl
    · exact Or.inr h
  · rintro (rfl | h)
    · exact Or.inl rfl
    · exact Or.inr h

/-! ## Acyclicity of the hierarchy and its preservation -/

/-- The hierarchy is a DAG: no directed parent-to-child walk returns to
its starting group. -/
def Acyclic (h : Finset (Nat × Nat)) : Prop :=
  ∀ g, ¬ Relation.TransGen (childStep h) g g

theorem childStep_insert {h : Finset (Nat × Nat)} {c p x y : Nat} :
    childStep (insert (c, p) h) x y ↔ (x = p ∧ y = c) ∨ childStep h x y := by
  rw [childStep_iff, childStep_iff, Finset.mem_insert, Prod.mk.injEq]
  tauto

theorem rtg_insert_decompose {h : Finset (Nat × Nat)} {c p a b : Nat}
    (hab : Relation.ReflTransGen (childStep (insert (c, p) h)) a b) :
    Relation.ReflTransGen (childStep h) a b ∨
      (Relation.ReflTransGen (childStep h) a p ∧
        Relation.ReflTransGen (childStep (insert (c, p) h)) c b) := by
  induction hab using Relation.ReflTransGen.head_induction_on with
  | refl => exact Or.inl Relation.ReflTransGen.refl
  | head hstep hrest ih =>
      rcases childStep_insert.1 hstep with ⟨rfl, rfl⟩ | hstepH
      · exact Or.inr ⟨Relation.ReflTransGen.refl, hrest⟩
      · rcases ih with ihL | ⟨ihP, ihC⟩
        · exact Or.inl (Relation.ReflTransGen.head hstepH ihL)
        · exact Or.inr ⟨Relation.ReflTransGen.head hstepH ihP, ihC⟩

theorem rtg_insert_from_child {h : Finset (Nat × Nat)} {c p b : Nat}
    (hncp : ¬ Relation.TransGen (childStep h) c p) (hne : c ≠ p)
    (hcb : Relation.ReflTransGen (childStep (insert (c, p) h)) c b) :
    Relation.ReflTransGen (childStep h) c b := by
  rcases rtg_insert_decompose hcb with hok | ⟨hcp, _⟩
  · exact hok
  · rcases Relation.reflTransGen_iff_eq_or_transGen.1 hcp with heq | htg
    · exact absurd heq.symm hne
    · exact absurd htg hncp

/-- Inserting the hierarchy edge `(child := c, parent := p)` keeps the
hierarchy acyclic, provided `c ≠ p` and `p` is not already a strict
descendant of `c` — exactly the two checks of `AddGroupToGroup`. -/
theorem acyclic_insert {h : Finset (Nat × Nat)} {c p : Nat}
    (hA : Acyclic h) (hne : c ≠ p)
    (hncp : ¬ Relation.TransGen (childStep h) c p) :
    Acyclic (insert (c, p) h) := by
  intro g hg
  rcases Relation.TransGen.head'_iff.1 hg with ⟨g1, hstep, hrest⟩
  rcases childStep_insert.1 hstep with ⟨rfl, rfl⟩ | hstepH
  · rcases Relation.reflTransGen_iff_eq_or_transGen.1
        (rtg_insert_from_child hncp hne hrest) with heq | htg
    · exact hne heq.symm
    · exact hncp htg
  · rcases rtg_insert_decompose hrest with hok | ⟨hg1p, hcg⟩
    · exact hA g (Relation.TransGen.head' hstepH hok)
    · have hcg' : Relation.ReflTransGen (childStep h) c g :=
        rtg_insert_from_child hncp hne hcg
      have hcp' : Relation.ReflTransGen (childStep h) c p :=
        (hcg'.tail hstepH).trans hg1p
      rcases Relation.reflTransGen_iff_eq_or_transGen.1 hcp' with heq | htg
      · exact hne heq.symm
      · exact hncp htg

/-- In an acyclic hierarchy no self-loop row is stored. -/
theorem no_self_loop_of_acyclic {h : Finset (Nat × Nat)} (hA : Acyclic h)
    (g : Nat) : (g, g) ∉ h := fun hmem =>
  hA g (Relation.TransGen.single (childStep_iff.2 hmem))

/-! ## `ORDER BY` ascending: enumerate a `Finset` in increasing order

`List.insertionSort` is structurally recursive, so results of queries with
an `ORDER BY` clause stay evaluable by kernel reduction on concrete
states. -/

/-- The ascending enumeration of a finite set of ids, i.e. the result set
of a query with `ORDER BY` on a primary-key column. -/
def ascendingList (s : Finset Nat) : List Nat :=
  Quot.lift (fun l => List.insertionSort (· ≤ ·) l)
    (fun l l' h =>
      List.eq_of_perm_of_sorted
        ((List.perm_insertionSort _ l).trans
          ((h : List.Perm l l').trans (List.perm_insertionSort _ l').symm))
        (List.sorted_insertionSort _ l) (List.sorted_insertionSort _ l'))
    s.val

theorem ascendingList_coe (s : Finset Nat) :
    ((ascendingList s : List Nat) : Multiset Nat) = s.val := by
  rcases s with ⟨m, hm⟩
  induction m using Quot.ind with
  | _ l => exact Quot.sound (List.perm_insertionSort _ l)

theorem mem_ascendingList {s : Finset Nat} {a : Nat} :
    a ∈ ascendingList s ↔ a ∈ s := by
  rw [← Multiset.mem_coe, ascendingList_coe]
  exact Iff.rfl

theorem ascendingList_sorted (s : Finset Nat) :
    (ascendingList s).Sorted (· ≤ ·) := by
  rcases s with ⟨m, hm⟩
  induction m using Quot.ind with
  | _ l => exact List.sorted_insertionSort _ l

theorem ascendingList_nodup (s : Finset Nat) : (ascendingList s).Nodup := by
  have hd := s.nodup
  rw [← ascendingList_coe s, Multiset.coe_nodup] at hd
  exact hd

theorem ascendingList_sorted_lt (s : Finset Nat) :
    (ascendingList s).Sorted (· < ·) :=
  (ascendingList_sorted s).lt_of_le (ascendingList_nodup s)

/-! ## Error taxonomy (`errors.go`) and operations (`server.go`, `repository.go`) -/

instance {ε α : Type} [DecidableEq ε] [DecidableEq α] : DecidableEq (Except ε α)
  | .ok a, .ok b =>
      if h : a = b then .isTrue (by rw [h]) else .isFalse (fun hc => h (by injection hc))
  | .ok _, .error _ => .isFalse (fun hc => by injection hc)
  | .error _, .ok _ => .isFalse (fun hc => by injection hc)
  | .error a, .error b =>
      if h : a = b then .isTrue (by rw [h]) else .isFalse (fun hc => h (by injection hc))

/-- Domain errors of `errors.go` plus the opaque wrapper for backend
failures (`fmt.Errorf`-wrapped driver errors, e.g. foreign-key
violations). -/
inductive PErr where
  | userNotFound (id : Nat)
  | groupNotFound (id : Nat)
  | cycleDetected (child parent : Nat)
  | permissionDenied (sourceUserId : Nat) (targetType : PType) (targetId : Nat)
  | storeFailure
deriving DecidableEq, Repr

/-- `CreateUser`: `INSERT INTO users (name) VALUES (?)`, returning
`LastInsertId` of the `AUTO_INCREMENT` column. -/
def createUser (db : DB) (name : String) : Nat × DB :=
  (db.nextUserId,
    { db with
        users := db.users ++ [(db.nextUserId, name)]
        nextUserId := db.nextUserId + 1 })

/-- `CreateUserGroup`: `INSERT INTO user_groups (name) VALUES (?)`. -/
def createUserGroup (db : DB) (name : String) : Nat × DB :=
  (db.nextGroupId,
    { db with
        groups := db.groups ++ [(db.nextGroupId, name)]
        nextGroupId := db.nextGroupId + 1 })

/-- `GetUserName` / `GetUserByID`: `SELECT name FROM users WHERE id = ?`;
`sql.ErrNoRows` becomes `UserNotFoundError`. -/
def getUserName (db : DB) (id : Nat) : Except PErr String :=
  match db.users.lookup id with
  | some n => .ok n
  | none => .error (.userNotFound id)

/-- `GetUserGroupName` / `GetUserGroupByID`. -/
def getUserGroupName (db : DB) (id : Nat) : Except PErr String :=
  match db.groups.lookup id with
  | some n => .ok n
  | none => .error (.groupNotFound id)

/-- `AddUserToGroup`: `INSERT ... ON DUPLICATE KEY UPDATE` into
`user_group_members`.  The Go code performs no existence validation, but
the table's `FOREIGN KEY` constraints to `users` and `user_groups` reject
rows whose user or group does not exist; the resulting driver error is
surfaced as a wrapped store failure. -/
def addUserToGroup (db : DB) (u g : Nat) : Except PErr DB :=
  if (db.users.lookup u).isSome && (db.groups.lookup g).isSome then
    .ok { db with members := insert (u, g) db.members }
  else
    .error .storeFailure

/-- `GetUsersInGroup`: `SELECT user_id FROM user_group_members WHERE
user_group_id = ? ORDER BY user_id`. -/
def getUsersInGroup (db : DB) (g : Nat) : List Nat :=
  ascendingList ((db.members.filter (fun m => m.2 = g)).image Prod.fst)

/-- `GetUsersInGroupTransitive`: `SELECT DISTINCT m.user_id FROM
user_group_members m INNER JOIN all_groups ag ON m.user_group_id =
ag.group_id ORDER BY m.user_id`, with `all_groups` the recursive CTE
`descendantsOf`. -/
def getUsersInGroupTransitive (db : DB) (g : Nat) : List Nat :=
  ascendingList ((db.members.filter (fun m => m.2 ∈ descendantsOf db g)).image Prod.fst)

/-- `GetUserGroupsInGroup` / `GetGroupsInGroup`: `SELECT child_group_id
FROM user_group_hierarchy WHERE parent_group_id = ? ORDER BY
child_group_id`. -/
def getGroupsInGroup (db : DB) (g : Nat) : List Nat :=
  ascendingList ((db.hier.filter (fun e => e.2 = g)).image Prod.fst)

/-- `WouldCreateCycle`: `childID == parentID`, or `queryCheckCycle` finds
`parentID` among the strict descendants of `childID`. -/
def wouldCreateCycle (db : DB) (c p : Nat) : Bool :=
  c == p || decide (p ∈ strictDescendants db c)

/-- `AddUserGroupToGroup` (server) followed by the repository's
transactional `AddGroupToGroup`.  In the sequential model both the
server-level `WouldCreateCycle` fast path and the in-transaction
`queryCheckCycle` evaluate the same predicate on the same snapshot, so
they are rendered as one check; a failed check rolls the transaction
back, leaving the state unchanged.  The insert itself is subject to the
`FOREIGN KEY` constraints of `user_group_hierarchy`. -/
def addGroupToGroup (db : DB) (c p : Nat) : Except PErr DB :=
  if c = p then .error (.cycleDetected c p)
  else if p ∈ strictDescendants db c then .error (.cycleDetected c p)
  else if (db.groups.lookup c).isSome && (db.groups.lookup p).isSome then
    .ok { db with hier := insert (c, p) db.hier }
  else
    .error .storeFailure

/-- `AddPermission`: idempotent insert into `permissions`.  The table has
no foreign keys, so the insert succeeds for arbitrary ids. -/
def addPermission (db : DB) (srcType tgtType : PType) (srcId tgtId : Nat) :
    Except PErr DB :=
  .ok { db with perms := insert ⟨srcType, srcId, tgtType, tgtId⟩ db.perms }

/-- `HasUserPermissionOnUser` / `queryCheckUserPermissionOnUser`: the
four-scenario `UNION`, in query order — direct user→user, source-elevated
group→user, target-elevated user→group, both-elevated group→group. -/
def hasUserPermissionOnUser (db : DB) (c t : Nat) : Prop :=
  (∃ gr ∈ db.perms, gr.sourceType = PType.user ∧ gr.sourceId = c ∧
    gr.targetType = PType.user ∧ gr.targetId = t) ∨
  (∃ gr ∈ db.perms, gr.sourceType = PType.group ∧ gr.sourceId ∈ ancestorsOfUser db c ∧
    gr.targetType = PType.user ∧ gr.targetId = t) ∨
  (∃ gr ∈ db.perms, gr.sourceType = PType.user ∧ gr.sourceId = c ∧
    gr.targetType = PType.group ∧ gr.targetId ∈ ancestorsOfUser db t) ∨
  (∃ gr ∈ db.perms, gr.sourceType = PType.group ∧ gr.sourceId ∈ ancestorsOfUser db c ∧
    gr.targetType = PType.group ∧ gr.targetId ∈ ancestorsOfUser db t)

instance (db : DB) (c t : Nat) : Decidable (hasUserPermissionOnUser db c t) := by
  unfold hasUserPermissionOnUser
  infer_instance

/-- `HasUserPermissionOnGroup` / `queryCheckUserPermissionOnGroup`: the
four-scenario `UNION`; scenarios 3 and 4 use the reflexive
`parent_groups` CTE seeded with the target group itself. -/
def hasUserPermissionOnGroup (db : DB) (c t : Nat) : Prop :=
  (∃ gr ∈ db.perms, gr.sourceType = PType.user ∧ gr.sourceId = c ∧
    gr.targetType = PType.group ∧ gr.targetId = t) ∨
  (∃ gr ∈ db.perms, gr.sourceType = PType.group ∧ gr.sourceId ∈ ancestorsOfUser db c ∧
    gr.targetType = PType.group ∧ gr.targetId = t) ∨
  (∃ gr ∈ db.perms, gr.sourceType = PType.user ∧ gr.sourceId = c ∧
    gr.targetType = PType.group ∧ gr.targetId ∈ groupTargetReach db t) ∨
  (∃ gr ∈ db.perms, gr.sourceType = PType.group ∧ gr.sourceId ∈ ancestorsOfUser db c ∧
    gr.targetType = PType.group ∧ gr.targetId ∈ groupTargetReach db t)

instance (db : DB) (c t : Nat) : Decidable (hasUserPermissionOnGroup db c t) := by
  unfold hasUserPermissionOnGroup
  infer_instance

/-- `GetUserNameWithPermissionCheck`: run the check; on denial return
`PermissionDeniedError{SourceUserID, "user", TargetID}`, otherwise fall
through to `GetUserName`. -/
def getUserNameWithPermissionCheck (db : DB) (c t : Nat) : Except PErr String :=
  if hasUserPermissionOnUser db c t then getUserName db t
  else .error (.permissionDenied c PType.user t)

/-- `GetUserGroupNameWithPermissionCheck`: run the check; on denial
return `PermissionDeniedError{SourceUserID, "group", TargetID}`,
otherwise fall through to `GetUserGroupName`. -/
def getUserGroupNameWithPermissionCheck (db : DB) (c t : Nat) : Except PErr String :=
  if hasUserPermissionOnGroup db c t then getUserGroupName db t
  else .error (.permissionDenied c PType.group t)

/-! ## Operation sequences -/

/-- One server API call.  Write calls carry their arguments; read calls
are listed too (they never change the state). -/
inductive Op where
  | createUser (name : String)
  | createUserGroup (name : String)
  | addUserToGroup (u g : Nat)
  | addGroupToGroup (c p : Nat)
  | addPermission (srcType tgtType : PType) (srcId tgtId : Nat)
  | getUserName (id : Nat)
  | getUserGroupName (id : Nat)
  | getUsersInGroup (g : Nat)
  | getGroupsInGroup (g : Nat)
  | getUsersInGroupTransitive (g : Nat)
  | getUserNameWithPermissionCheck (c t : Nat)
  | getUserGroupNameWithPermissionCheck (c t : Nat)

/-- State transition of one call: a failed write rolls back (the Go code
either never started a write or rolled the transaction back), reads leave
the state untouched. -/
def applyOp (db : DB) : Op → DB
  | .createUser n => (createUser db n).2
  | .createUserGroup n => (createUserGroup db n).2
  | .addUserToGroup u g =>
      match addUserToGroup db u g with
      | .ok db' => db'
      | .error _ => db
  | .addGroupToGroup c p =>
      match addGroupToGroup db c p with
      | .ok db' => db'
      | .error _ => db
  | .addPermission a b i j =>
      match addPermission db a b i j with
      | .ok db' => db'
      | .error _ => db
  | _ => db

/-- Run a whole sequence of calls against the freshly initialised store. -/
def runOps (ops : List Op) : DB := ops.foldl applyOp initDB

/-! ## Spec-side decision predicate (refinement target for claim C1)

These three definitions follow the specification's words (§4.3): access
is allowed iff some stored grant has its typed source in
`{(user, contextUser)} ∪ {(group, g) : g ∈ ancestorsOf(contextUser)}`
and its typed target in the target reach set. -/

/-- Spec wording: the typed source reach set of the context user. -/
def specSourceMatch (db : DB) (c : Nat) (ty : PType) (i : Nat) : Prop :=
  (ty = PType.user ∧ i = c) ∨ (ty = PType.group ∧ i ∈ ancestorsOfUser db c)

/-- Spec wording: the target reach set when the target is a user:
the user itself, or a group that transitively contains it. -/
def specUserTargetMatch (db : DB) (t : Nat) (ty : PType) (i : Nat) : Prop :=
  (ty = PType.user ∧ i = t) ∨ (ty = PType.group ∧ i ∈ ancestorsOfUser db t)

/-- Spec wording: the target reach set when the target is a group:
the group itself or a group transitively containing it (the reflexive
upward closure). -/
def specGroupTargetMatch (db : DB) (t : Nat) (ty : PType) (i : Nat) : Prop :=
  ty = PType.group ∧ i ∈ groupTargetReach db t

/-- C1: the permission check (`HasUserPermissionOnUser` /
`HasUserPermissionOnGroup`, as invoked by the checked name lookups)
returns Allowed iff some stored grant `(srcType, srcId, tgtType, tgtId)`
has `(srcType, srcId)` equal to `(user, contextUser)` or `(group, G)`
with `G` an ancestor group of the context user, and `(tgtType, tgtId)`
in the target reach set (the target user plus its ancestor groups, resp.
the target group plus its ancestor groups); the four query scenarios are
disjunctive and any one suffices. -/
theorem permission_check_iff_grant_reach (db : DB) (c t : Nat) :
    (hasUserPermissionOnUser db c t ↔
      ∃ gr ∈ db.perms, specSourceMatch db c gr.sourceType gr.sourceId ∧
        specUserTargetMatch db t gr.targetType gr.targetId) ∧
    (hasUserPermissionOnGroup db c t ↔
      ∃ gr ∈ db.perms, specSourceMatch db c gr.sourceType gr.sourceId ∧
        specGroupTargetMatch db t gr.targetType gr.targetId) := by
  unfold hasUserPermissionOnUser hasUserPermissionOnGroup specSourceMatch
    specUserTargetMatch specGroupTargetMatch
  constructor
  · constructor
    · rintro (⟨gr, hm, h1, h2, h3, h4⟩ | ⟨gr, hm, h1, h2, h3, h4⟩ |
        ⟨gr, hm, h1, h2, h3, h4⟩ | ⟨gr, hm, h1, h2, h3, h4⟩)
      · exact ⟨gr, hm, Or.inl ⟨h1, h2⟩, Or.inl ⟨h3, h4⟩⟩
      · exact ⟨gr, hm, Or.inr ⟨h1, h2⟩, Or.inl ⟨h3, h4⟩⟩
      · exact ⟨gr, hm, Or.inl ⟨h1, h2⟩, Or.inr ⟨h3, h4⟩⟩
      · exact ⟨gr, hm, Or.inr ⟨h1, h2⟩, Or.inr ⟨h3, h4⟩⟩
    · rintro ⟨gr, hm, hs | hs, ht | ht⟩
      · exact Or.inl ⟨gr, hm, hs.1, hs.2, ht.1, ht.2⟩
      · exact Or.inr (Or.inr (Or.inl ⟨gr, hm, hs.1, hs.2, ht.1, ht.2⟩))
      · exact Or.inr (Or.inl ⟨gr, hm, hs.1, hs.2, ht.1, ht.2⟩)
      · exact Or.inr (Or.inr (Or.inr ⟨gr, hm, hs.1, hs.2, ht.1, ht.2⟩))
  · constructor
    · rintro (⟨gr, hm, h1, h2, h3, h4⟩ | ⟨gr, hm, h1, h2, h3, h4⟩ |
        ⟨gr, hm, h1, h2, h3, h4⟩ | ⟨gr, hm, h1, h2, h3, h4⟩)
      · refine ⟨gr, hm, Or.inl ⟨h1, h2⟩, h3, ?_⟩
        rw [h4]
        exact self_mem_groupTargetReach db t
      · refine ⟨gr, hm, Or.inr ⟨h1, h2⟩, h3, ?_⟩
        rw [h4]
        exact self_mem_groupTargetReach db t
      · exact ⟨gr, hm, Or.inl ⟨h1, h2⟩, h3, h4⟩
      · exact ⟨gr, hm, Or.inr ⟨h1, h2⟩, h3, h4⟩
    · rintro ⟨gr, hm, hs | hs, ht⟩
      · exact Or.inr (Or.inr (Or.inl ⟨gr, hm, hs.1, hs.2, ht.1, ht.2⟩))
      · exact Or.inr (Or.inr (Or.inr ⟨gr, hm, hs.1, hs.2, ht.1, ht.2⟩))

/-! ## Preservation of acyclicity along operation sequences -/

theorem acyclic_empty : Acyclic (∅ : Finset (Nat × Nat)) := by
  intro g hg
  rcases Relation.TransGen.head'_iff.1 hg with ⟨b, hb, _⟩
  exact absurd (childStep_iff.1 hb) (Finset.not_mem_empty _)

/-- Anatomy of a successful `AddGroupToGroup`: both cycle checks passed
and exactly the requested edge was inserted. -/
theorem addGroupToGroup_ok {db db' : DB} {c p : Nat}
    (h : addGroupToGroup db c p = .ok db') :
    db' = { db with hier := insert (c, p) db.hier } ∧
      c ≠ p ∧ p ∉ strictDescendants db c := by
  unfold addGroupToGroup at h
  by_cases hcp : c = p
  · rw [if_pos hcp] at h
    exact absurd h (by simp)
  · rw [if_neg hcp] at h
    by_cases hdesc : p ∈ strictDescendants db c
    · rw [if_pos hdesc] at h
      exact absurd h (by simp)
    · rw [if_neg hdesc] at h
      by_cases hex : ((db.groups.lookup c).isSome && (db.groups.lookup p).isSome) = true
      · rw [if_pos hex] at h
        injection h with h'
        exact ⟨h'.symm, hcp, hdesc⟩
      · rw [if_neg hex] at h
        exact absurd h (by simp)

theorem acyclic_applyOp {db : DB} (hA : Acyclic db.hier) (op : Op) :
    Acyclic (applyOp db op).hier := by
  cases op with
  | createUser n => exact hA
  | createUserGroup n => exact hA
  | addUserToGroup u g =>
      show Acyclic ((match addUserToGroup db u g with
        | .ok db' => db'
        | .error _ => db) : DB).hier
      rcases hres : addUserToGroup db u g with e | db'
      · exact hA
      · unfold addUserToGroup at hres
        split at hres
        · injection hres with h'
          rw [← h']
          exact hA
        · exact absurd hres (by simp)
  | addGroupToGroup c p =>
      show Acyclic ((match addGroupToGroup db c p with
        | .ok db' => db'
        | .error _ => db) : DB).hier
      rcases hres : addGroupToGroup db c p with e | db'
      · exact hA
      · rcases addGroupToGroup_ok hres with ⟨hdb, hne, hnd⟩
        rw [hdb]
        exact acyclic_insert hA hne (fun htg => hnd (mem_strictDescendants.2 htg))
  | addPermission a b i j =>
      show Acyclic ((match addPermission db a b i j with
        | .ok db' => db'
        | .error _ => db) : DB).hier
      rcases hres : addPermission db a b i j with e | db'
      · exact hA
      · unfold addPermission at hres
        injection hres with h'
        rw [← h']
        exact hA
  | getUserName id => exact hA
  | getUserGroupName id => exact hA
  | getUsersInGroup g => exact hA
  | getGroupsInGroup g => exact hA
  | getUsersInGroupTransitive g => exact hA
  | getUserNameWithPermissionCheck c t => exact hA
  | getUserGroupNameWithPermissionCheck c t => exact hA

theorem acyclic_foldl (ops : List Op) :
    ∀ db : DB, Acyclic db.hier → Acyclic (ops.foldl applyOp db).hier := by
  induction ops with
  | nil => exact fun _ h => h
  | cons op rest ih => exact fun db h => ih _ (acyclic_applyOp h op)

theorem acyclic_runOps (ops : List Op) : Acyclic (runOps ops).hier :=
  acyclic_foldl ops initDB acyclic_empty

/-- C4: after any sequence of API calls against the fresh store, the
hierarchy edge set forms a DAG — no directed parent-to-child walk
returns to its starting group — and in particular no self-loop edge
`(g, g)` is ever stored. -/
theorem runOps_hierarchy_is_dag (ops : List Op) :
    Acyclic (runOps ops).hier ∧ ∀ g, (g, g) ∉ (runOps ops).hier :=
  ⟨acyclic_runOps ops, fun g => no_self_loop_of_acyclic (acyclic_runOps ops) g⟩

/-- In an acyclic hierarchy, re-adding a stored edge passes both cycle
checks and the idempotent insert leaves the state unchanged. -/
theorem addGroupToGroup_of_mem {db : DB} {c p : Nat} (hA : Acyclic db.hier)
    (hmem : (c, p) ∈ db.hier) (hc : (db.groups.lookup c).isSome = true)
    (hp : (db.groups.lookup p).isSome = true) :
    addGroupToGroup db c p = .ok db := by
  have hne : c ≠ p := by
    intro heq
    exact no_self_loop_of_acyclic hA p (by rwa [heq] at hmem)
  have hdesc : p ∉ strictDescendants db c := by
    intro hd
    exact hA c ((mem_strictDescendants.1 hd).tail (childStep_iff.2 hmem))
  unfold addGroupToGroup
  rw [if_neg hne, if_neg hdesc, if_pos (by rw [hc, hp]; rfl)]
  rw [Finset.insert_eq_self.2 hmem]

/-- C2: for existing groups, `AddUserGroupToGroup` fails with
`CycleDetected` iff `childId = parentId` or `parentId` is a descendant
of `childId` at call time; any failure leaves the state (hence the
descendant sets) unchanged; otherwise the edge is inserted; and
re-inserting a present edge of an acyclic hierarchy is a no-op reported
as success. -/
theorem addGroupToGroup_cycle_spec (db : DB) (c p : Nat)
    (hc : (db.groups.lookup c).isSome = true)
    (hp : (db.groups.lookup p).isSome = true) :
    (addGroupToGroup db c p = .error (.cycleDetected c p) ↔
      c = p ∨ p ∈ strictDescendants db c) ∧
    (∀ e, addGroupToGroup db c p = .error e →
      applyOp db (.addGroupToGroup c p) = db) ∧
    (¬(c = p ∨ p ∈ strictDescendants db c) →
      addGroupToGroup db c p = .ok { db with hier := insert (c, p) db.hier }) ∧
    ((c, p) ∈ db.hier → Acyclic db.hier → addGroupToGroup db c p = .ok db) := by
  refine ⟨?_, ?_, ?_, fun hmem hA => addGroupToGroup_of_mem hA hmem hc hp⟩
  · constructor
    · intro h
      by_contra hcon
      push_neg at hcon
      have hok : addGroupToGroup db c p =
          .ok { db with hier := insert (c, p) db.hier } := by
        unfold addGroupToGroup
        rw [if_neg hcon.1, if_neg hcon.2, if_pos (by rw [hc, hp]; rfl)]
      rw [h] at hok
      exact absurd hok (by simp)
    · rintro (hcp | hdesc)
      · unfold addGroupToGroup
        rw [if_pos hcp]
      · unfold addGroupToGroup
        by_cases hcp : c = p
        · rw [if_pos hcp]
        · rw [if_neg hcp, if_pos hdesc]
  · intro e he
    show (match addGroupToGroup db c p with
      | .ok db' => db'
      | .error _ => db) = db
    rw [he]
  · intro hcon
    push_neg at hcon
    unfold addGroupToGroup
    rw [if_neg hcon.1, if_neg hcon.2, if_pos (by rw [hc, hp]; rfl)]

/-- Concrete store for the C2 witness: two groups with `(1, 2)` in the
hierarchy (group 1 nested in group 2). -/
def dbC2 : DB :=
  runOps [.createUserGroup "a", .createUserGroup "b", .addGroupToGroup 1 2]

theorem addGroupToGroup_cycle_spec_witness :
    (addGroupToGroup dbC2 2 1 = .error (.cycleDetected 2 1)) ∧
    (addGroupToGroup dbC2 1 2 = .ok dbC2) ∧
    (addGroupToGroup dbC2 1 1 = .error (.cycleDetected 1 1)) :=
  ⟨(addGroupToGroup_cycle_spec dbC2 2 1 (by decide) (by decide)).1.2
      (Or.inr (by decide)),
    (addGroupToGroup_cycle_spec dbC2 1 2 (by decide) (by decide)).2.2.2
      (by decide)
      (acyclic_runOps [.createUserGroup "a", .createUserGroup "b", .addGroupToGroup 1 2]),
    (addGroupToGroup_cycle_spec dbC2 1 1 (by decide) (by decide)).1.2
      (Or.inl rfl)⟩

/-- C3: the checked name lookups return `PermissionDenied` whenever the
check denies — also when the target does not exist — and only when the
check allows do they fall through to the plain name lookup, where a
missing target yields `UserNotFound` (resp. `GroupNotFound`).  Denial
takes precedence over not-found. -/
theorem checked_lookup_denial_precedence (db : DB) (c t : Nat) :
    (¬ hasUserPermissionOnUser db c t →
      getUserNameWithPermissionCheck db c t =
        .error (.permissionDenied c PType.user t)) ∧
    (hasUserPermissionOnUser db c t →
      getUserNameWithPermissionCheck db c t = getUserName db t) ∧
    (hasUserPermissionOnUser db c t → db.users.lookup t = none →
      getUserNameWithPermissionCheck db c t = .error (.userNotFound t)) ∧
    (¬ hasUserPermissionOnGroup db c t →
      getUserGroupNameWithPermissionCheck db c t =
        .error (.permissionDenied c PType.group t)) ∧
    (hasUserPermissionOnGroup db c t →
      getUserGroupNameWithPermissionCheck db c t = getUserGroupName db t) ∧
    (hasUserPermissionOnGroup db c t → db.groups.lookup t = none →
      getUserGroupNameWithPermissionCheck db c t = .error (.groupNotFound t)) := by
  refine ⟨fun h => ?_, fun h => ?_, fun h hn => ?_, fun h => ?_, fun h => ?_,
    fun h hn => ?_⟩
  · unfold getUserNameWithPermissionCheck
    rw [if_neg h]
  · unfold getUserNameWithPermissionCheck
    rw [if_pos h]
  · unfold getUserNameWithPermissionCheck getUserName
    rw [if_pos h, hn]
  · unfold getUserGroupNameWithPermissionCheck
    rw [if_neg h]
  · unfold getUserGroupNameWithPermissionCheck
    rw [if_pos h]
  · unfold getUserGroupNameWithPermissionCheck getUserGroupName
    rw [if_pos h, hn]

/-- Witness store: one user, no groups, no grants — no target `9`. -/
def dbC3a : DB := runOps [.createUser "alice"]

/-- Witness store: direct grants towards non-existent targets. -/
def dbC3b : DB :=
  runOps [.addPermission .user .user 1 9, .addPermission .user .group 1 9]

theorem checked_lookup_denial_precedence_witness :
    (getUserNameWithPermissionCheck dbC3a 1 9 =
      .error (.permissionDenied 1 PType.user 9)) ∧
    (getUserNameWithPermissionCheck dbC3b 1 9 = .error (.userNotFound 9)) ∧
    (getUserGroupNameWithPermissionCheck dbC3a 1 9 =
      .error (.permissionDenied 1 PType.group 9)) ∧
    (getUserGroupNameWithPermissionCheck dbC3b 1 9 = .error (.groupNotFound 9)) :=
  ⟨(checked_lookup_denial_precedence dbC3a 1 9).1 (by decide),
    (checked_lookup_denial_precedence dbC3b 1 9).2.2.1 (by decide) (by decide),
    (checked_lookup_denial_precedence dbC3a 1 9).2.2.2.1 (by decide),
    (checked_lookup_denial_precedence dbC3b 1 9).2.2.2.2.2 (by decide) (by decide)⟩

/-- C5: `GetUsersInGroupTransitive g` returns a strictly ascending,
duplicate-free sequence holding exactly the users directly a member of
some group in `descendantsOf g` (`g` itself plus every group reachable
parent-to-child); in particular every direct member listed by
`GetUsersInGroup g` appears in it. -/
theorem usersInGroupTransitive_spec (db : DB) (g : Nat) :
    (getUsersInGroupTransitive db g).Sorted (· < ·) ∧
    (∀ u, u ∈ getUsersInGroupTransitive db g ↔
      ∃ d ∈ descendantsOf db g, (u, d) ∈ db.members) ∧
    (∀ d, d ∈ descendantsOf db g ↔
      Relation.ReflTransGen (childStep db.hier) g d) ∧
    (∀ u, u ∈ getUsersInGroup db g → u ∈ getUsersInGroupTransitive db g) := by
  refine ⟨ascendingList_sorted_lt _, fun u => ?_, fun d => mem_descendantsOf,
    fun u hu => ?_⟩
  · unfold getUsersInGroupTransitive
    rw [mem_ascendingList]
    constructor
    · intro h
      rcases Finset.mem_image.1 h with ⟨m, hm, rfl⟩
      rcases Finset.mem_filter.1 hm with ⟨hmem, hdesc⟩
      exact ⟨m.2, hdesc, hmem⟩
    · rintro ⟨d, hd, hm⟩
      exact Finset.mem_image.2 ⟨(u, d), Finset.mem_filter.2 ⟨hm, hd⟩, rfl⟩
  · unfold getUsersInGroup at hu
    unfold getUsersInGroupTransitive
    rw [mem_ascendingList] at hu ⊢
    rcases Finset.mem_image.1 hu with ⟨m, hm, rfl⟩
    rcases Finset.mem_filter.1 hm with ⟨hmem, hg⟩
    refine Finset.mem_image.2 ⟨m, Finset.mem_filter.2 ⟨hmem, ?_⟩, rfl⟩
    rw [hg]
    exact mem_descendantsOf.2 Relation.ReflTransGen.refl

/-- Witness store for C5: `Backend ⊂ Engineering ⊂ Company` with one
user in each group. -/
def dbC5 : DB :=
  runOps [.createUser "alice", .createUser "bob", .createUser "charlie",
    .createUserGroup "company", .createUserGroup "engineering",
    .createUserGroup "backend",
    .addGroupToGroup 2 1, .addGroupToGroup 3 2,
    .addUserToGroup 1 1, .addUserToGroup 2 2, .addUserToGroup 3 3]

theorem usersInGroupTransitive_spec_witness :
    (1 ∈ getUsersInGroupTransitive dbC5 1) ∧
    (2 ∈ getUsersInGroupTransitive dbC5 1) ∧
    (3 ∈ getUsersInGroupTransitive dbC5 1) :=
  ⟨(usersInGroupTransitive_spec dbC5 1).2.2.2 1 (by decide),
    ((usersInGroupTransitive_spec dbC5 1).2.1 2).2 ⟨2, by decide, by decide⟩,
    ((usersInGroupTransitive_spec dbC5 1).2.1 3).2 ⟨3, by decide, by decide⟩⟩

/-! ## Grant asymmetry (claim C6) -/

/-- Store with exactly one self-grant `(user 1 → user 1)`. -/
def dbC6 : DB := runOps [.addPermission .user .user 1 1]

/-- C6 counterexample: with `A = B = user 1` and the single stored grant
`(A source → B target)`, the permission check with the roles swapped —
`B` acting on `A` — returns Allowed although no other grant exists, so
the claim fails at `A = B`. -/
theorem grant_swap_counterexample :
    dbC6.perms = {⟨PType.user, 1, PType.user, 1⟩} ∧
      hasUserPermissionOnUser dbC6 1 1 :=
  ⟨by decide, by decide⟩

/-- C6 amended: when the source and the target of the single stored
grant are distinct principals, the check with swapped roles (the target
user acting on the source principal) is denied, whatever the membership
and hierarchy tables hold: the stored tuple is directed and is never
matched with source and target exchanged. -/
theorem grant_asymmetry_amended (db : DB) (gr : Grant)
    (hperm : db.perms = {gr}) (htgt : gr.targetType = PType.user)
    (hne : gr.sourceType ≠ PType.user ∨ gr.sourceId ≠ gr.targetId) :
    (gr.sourceType = PType.user →
      ¬ hasUserPermissionOnUser db gr.targetId gr.sourceId) ∧
    (gr.sourceType = PType.group →
      ¬ hasUserPermissionOnGroup db gr.targetId gr.sourceId) := by
  have hmem : ∀ g' : Grant, g' ∈ db.perms → g' = gr := by
    intro g' hg'
    rw [hperm] at hg'
    exact Finset.mem_singleton.1 hg'
  constructor
  · intro hsrc hck
    have hid : gr.sourceId ≠ gr.targetId := by
      rcases hne with h | h
      · exact absurd hsrc h
      · exact h
    rcases hck with ⟨g', hg', h1, h2, h3, h4⟩ | ⟨g', hg', h1, h2, h3, h4⟩ |
      ⟨g', hg', h1, h2, h3, h4⟩ | ⟨g', hg', h1, h2, h3, h4⟩
    · rw [hmem g' hg'] at h2
      exact hid h2
    · rw [hmem g' hg'] at h1
      rw [hsrc] at h1
      exact PType.noConfusion h1
    · rw [hmem g' hg'] at h3
      rw [htgt] at h3
      exact PType.noConfusion h3
    · rw [hmem g' hg'] at h1
      rw [hsrc] at h1
      exact PType.noConfusion h1
  · intro hsrc hck
    rcases hck with ⟨g', hg', h1, h2, h3, h4⟩ | ⟨g', hg', h1, h2, h3, h4⟩ |
      ⟨g', hg', h1, h2, h3, h4⟩ | ⟨g', hg', h1, h2, h3, h4⟩
    · rw [hmem g' hg'] at h1
      rw [hsrc] at h1
      exact PType.noConfusion h1
    · rw [hmem g' hg'] at h3
      rw [htgt] at h3
      exact PType.noConfusion h3
    · rw [hmem g' hg'] at h1
      rw [hsrc] at h1
      exact PType.noConfusion h1
    · rw [hmem g' hg'] at h3
      rw [htgt] at h3
      exact PType.noConfusion h3

/-- Store with the single grant `(user 1 → user 2)`. -/
def dbC6a : DB := runOps [.addPermission .user .user 1 2]

/-- Store with the single grant `(group 3 → user 2)`, user 2 being a
member of group 3 to make the swapped check as favourable as possible. -/
def dbC6b : DB :=
  runOps [.createUser "u1", .createUser "u2", .createUserGroup "g1",
    .createUserGroup "g2", .createUserGroup "g3",
    .addUserToGroup 2 3, .addGroupToGroup 3 2,
    .addPermission .group .user 3 2]

theorem grant_asymmetry_amended_witness :
    (¬ hasUserPermissionOnUser dbC6a 2 1) ∧
    (¬ hasUserPermissionOnGroup dbC6b 2 3) :=
  ⟨(grant_asymmetry_amended dbC6a ⟨PType.user, 1, PType.user, 2⟩
      (by decide) rfl (Or.inr (by decide))).1 rfl,
    (grant_asymmetry_amended dbC6b ⟨PType.group, 3, PType.user, 2⟩
      (by decide) rfl (Or.inl (by decide))).2 rfl⟩

/-! ## Idempotent re-execution (claim C7) -/

/-- Re-adding a stored membership row is accepted and changes nothing. -/
theorem addUserToGroup_of_mem {db : DB} {u g : Nat}
    (hmem : (u, g) ∈ db.members) (hu : (db.users.lookup u).isSome = true)
    (hg : (db.groups.lookup g).isSome = true) :
    addUserToGroup db u g = .ok db := by
  unfold addUserToGroup
  rw [if_pos (by rw [hu, hg]; rfl), Finset.insert_eq_self.2 hmem]

/-- Re-adding a stored grant row is accepted and changes nothing. -/
theorem addPermission_of_mem {db : DB} {a b : PType} {i j : Nat}
    (hmem : (⟨a, i, b, j⟩ : Grant) ∈ db.perms) :
    addPermission db a b i j = .ok db := by
  unfold addPermission
  rw [Finset.insert_eq_self.2 hmem]

/-- Anatomy of a successful `AddUserToGroup`. -/
theorem addUserToGroup_ok {db db' : DB} {u g : Nat}
    (h : addUserToGroup db u g = .ok db') :
    db' = { db with members := insert (u, g) db.members } ∧
      (db.users.lookup u).isSome = true ∧
      (db.groups.lookup g).isSome = true := by
  unfold addUserToGroup at h
  by_cases hex : ((db.users.lookup u).isSome && (db.groups.lookup g).isSome) = true
  · rw [if_pos hex] at h
    injection h with h'
    rw [Bool.and_eq_true] at hex
    exact ⟨h'.symm, hex.1, hex.2⟩
  · rw [if_neg hex] at h
    exact absurd h (by simp)

theorem addGroupToGroup_ok_lookup {db db' : DB} {c p : Nat}
    (h : addGroupToGroup db c p = .ok db') :
    (db.groups.lookup c).isSome = true ∧ (db.groups.lookup p).isSome = true := by
  unfold addGroupToGroup at h
  by_cases hcp : c = p
  · rw [if_pos hcp] at h
    exact absurd h (by simp)
  · rw [if_neg hcp] at h
    by_cases hd : p ∈ strictDescendants db c
    · rw [if_pos hd] at h
      exact absurd h (by simp)
    · rw [if_neg hd] at h
      by_cases hex : ((db.groups.lookup c).isSome && (db.groups.lookup p).isSome) = true
      · rw [Bool.and_eq_true] at hex
        exact hex
      · rw [if_neg hex] at h
        exact absurd h (by simp)

/-- C7: re-executing `AddUserToGroup` on a stored membership edge,
`AddUserGroupToGroup` on an already-present non-cyclic hierarchy edge,
or `AddPermission` on a stored grant tuple succeeds again and leaves the
observable state identical to after the first call: the duplicate insert
is silently absorbed. -/
theorem idempotent_writes (db db₁ : DB) (u g c p : Nat) (a b : PType)
    (i j : Nat) :
    (addUserToGroup db u g = .ok db₁ → addUserToGroup db₁ u g = .ok db₁) ∧
    (Acyclic db.hier → addGroupToGroup db c p = .ok db₁ →
      addGroupToGroup db₁ c p = .ok db₁) ∧
    (addPermission db a b i j = .ok db₁ →
      addPermission db₁ a b i j = .ok db₁) := by
  refine ⟨fun h => ?_, fun hA h => ?_, fun h => ?_⟩
  · rcases addUserToGroup_ok h with ⟨h1, hu, hg⟩
    subst h1
    exact addUserToGroup_of_mem (Finset.mem_insert_self _ _) hu hg
  · rcases addGroupToGroup_ok h with ⟨h1, hne, hnd⟩
    rcases addGroupToGroup_ok_lookup h with ⟨hc, hp⟩
    subst h1
    have hA' : Acyclic (insert (c, p) db.hier) :=
      acyclic_insert hA hne (fun htg => hnd (mem_strictDescendants.2 htg))
    exact addGroupToGroup_of_mem hA' (Finset.mem_insert_self _ _) hc hp
  · unfold addPermission at h
    injection h with h'
    subst h'
    exact addPermission_of_mem (Finset.mem_insert_self _ _)

/-- Setup calls for the C7 witness stores. -/
def opsC7 : List Op := [.createUser "u", .createUserGroup "g", .createUserGroup "h"]

def dbC7 : DB := runOps opsC7

def dbC7m : DB := runOps (opsC7 ++ [.addUserToGroup 1 1])

def dbC7h : DB := runOps (opsC7 ++ [.addGroupToGroup 1 2])

def dbC7p : DB := runOps (opsC7 ++ [.addPermission .user .user 5 9])

theorem idempotent_writes_witness :
    addUserToGroup dbC7m 1 1 = .ok dbC7m ∧
    addGroupToGroup dbC7h 1 2 = .ok dbC7h ∧
    addPermission dbC7p PType.user PType.user 5 9 = .ok dbC7p :=
  ⟨(idempotent_writes dbC7 dbC7m 1 1 1 2 PType.user PType.user 5 9).1
      (by decide),
    (idempotent_writes dbC7 dbC7h 1 1 1 2 PType.user PType.user 5 9).2.1
      (acyclic_runOps opsC7) (by decide),
    (idempotent_writes dbC7 dbC7p 1 1 1 2 PType.user PType.user 5 9).2.2
      (by decide)⟩

/-! ## Existence validation on the insertion paths (claim C8) -/

/-- C8 counterexample: on the empty store, `AddUserToGroup 1 1` does not
succeed — the foreign keys of `user_group_members` reject the row, the
call surfaces a store failure, and no membership is persisted. -/
theorem addUserToGroup_missing_rows_counterexample :
    addUserToGroup initDB 1 1 = .error .storeFailure ∧
      (runOps [.addUserToGroup 1 1]).members = ∅ :=
  ⟨by decide, by decide⟩

/-- C8 amended: `AddPermission` performs no principal-existence
validation and accepts arbitrary ids (the `permissions` table has no
foreign keys); `AddUserToGroup` likewise performs no application-level
validation, but the foreign keys of `user_group_members` make the write
succeed exactly when both referenced rows exist, surfacing a store
failure otherwise. -/
theorem insertion_validation_amended (db : DB) (a b : PType) (i j u g : Nat) :
    addPermission db a b i j =
      .ok { db with perms := insert ⟨a, i, b, j⟩ db.perms } ∧
    (addUserToGroup db u g =
        .ok { db with members := insert (u, g) db.members } ↔
      ((db.users.lookup u).isSome = true ∧ (db.groups.lookup g).isSome = true)) ∧
    (((db.users.lookup u).isSome = true ∧ (db.groups.lookup g).isSome = true) ∨
      addUserToGroup db u g = .error .storeFailure) := by
  refine ⟨rfl, ?_, ?_⟩
  · constructor
    · intro h
      exact (addUserToGroup_ok h).2
    · rintro ⟨hu, hg⟩
      unfold addUserToGroup
      rw [if_pos (by rw [hu, hg]; rfl)]
  · by_cases hex : ((db.users.lookup u).isSome && (db.groups.lookup g).isSome) = true
    · rw [Bool.and_eq_true] at hex
      exact Or.inl hex
    · refine Or.inr ?_
      unfold addUserToGroup
      rw [if_neg hex]

/-- Store with one user and one group for the C8 witness. -/
def dbC8 : DB := runOps [.createUser "u", .createUserGroup "g"]

theorem insertion_validation_amended_witness :
    addPermission initDB PType.user PType.group 5 9 =
      .ok { initDB with perms := insert ⟨PType.user, 5, PType.group, 9⟩ initDB.perms } ∧
    addUserToGroup dbC8 1 1 =
      .ok { dbC8 with members := insert (1, 1) dbC8.members } :=
  ⟨(insertion_validation_amended initDB PType.user PType.group 5 9 1 1).1,
    ((insertion_validation_amended dbC8 PType.user PType.group 5 9 1 1).2.1).2
      ⟨by decide, by decide⟩⟩

/-! ## The check ignores context-user existence (claim C9) -/

/-- C9: the permission check never validates that the context user
exists: whenever a direct grant `(user c → user t)` is stored, the
checked lookup is never denied and proceeds to the name lookup of `t`,
also in stores where no user with id `c` was ever created. -/
theorem check_skips_context_user_existence (db : DB) (c t : Nat)
    (h : (⟨PType.user, c, PType.user, t⟩ : Grant) ∈ db.perms) :
    getUserNameWithPermissionCheck db c t = getUserName db t ∧
    ∀ s ty i, getUserNameWithPermissionCheck db c t ≠
      .error (.permissionDenied s ty i) := by
  have hperm : hasUserPermissionOnUser db c t :=
    Or.inl ⟨⟨PType.user, c, PType.user, t⟩, h, rfl, rfl, rfl, rfl⟩
  constructor
  · unfold getUserNameWithPermissionCheck
    rw [if_pos hperm]
  · intro s ty i
    unfold getUserNameWithPermissionCheck getUserName
    rw [if_pos hperm]
    cases hl : db.users.lookup t <;> simp

/-- Store with the single grant `(user 7 → user 8)` and no users at
all. -/
def dbC9 : DB := runOps [.addPermission .user .user 7 8]

theorem check_skips_context_user_existence_witness :
    dbC9.users = [] ∧
    getUserNameWithPermissionCheck dbC9 7 8 = getUserName dbC9 8 ∧
    getUserNameWithPermissionCheck dbC9 7 8 ≠
      .error (.permissionDenied 7 PType.user 8) :=
  ⟨by decide, (check_skips_context_user_existence dbC9 7 8 (by decide)).1,
    (check_skips_context_user_existence dbC9 7 8 (by decide)).2 7 PType.user 8⟩

/-! ## Totality of `GetUsersInGroup` (claim C10) -/

/-- C10: `GetUsersInGroup` is total — for every id, including ids naming
no existing group or a group with no members, it returns the (possibly
empty) strictly ascending sequence of exactly the direct members, never
a not-found error; with no members it returns the empty sequence. -/
theorem usersInGroup_total (db : DB) (g : Nat) :
    (∀ u, u ∈ getUsersInGroup db g ↔ (u, g) ∈ db.members) ∧
    (getUsersInGroup db g).Sorted (· < ·) ∧
    ((∀ u, (u, g) ∉ db.members) → getUsersInGroup db g = []) := by
  refine ⟨fun u => ?_, ascendingList_sorted_lt _, fun hnone => ?_⟩
  · unfold getUsersInGroup
    rw [mem_ascendingList]
    constructor
    · intro h
      rcases Finset.mem_image.1 h with ⟨m, hm, rfl⟩
      rcases Finset.mem_filter.1 hm with ⟨h1, h2⟩
      rw [← h2]
      exact h1
    · intro h
      exact Finset.mem_image.2 ⟨(u, g), Finset.mem_filter.2 ⟨h, rfl⟩, rfl⟩
  · unfold getUsersInGroup
    have hempty : db.members.filter (fun m => m.2 = g) = ∅ := by
      rw [Finset.filter_eq_empty_iff]
      intro m hm heq
      refine hnone m.1 ?_
      rw [← heq]
      exact hm
    rw [hempty, Finset.image_empty]
    rfl

/-- Store with one user, no groups, no memberships. -/
def dbC10 : DB := runOps [.createUser "x"]

theorem usersInGroup_total_witness :
    getUsersInGroup dbC10 42 = [] :=
  (usersInGroup_total dbC10 42).2.2
    (fun u h => Finset.not_mem_empty (u, 42) h)
